import Mathlib

/-!
# QgsImageWarper: transform chain and resolution negotiation

A shallow embedding of `src/app/georeferencer/qgsimagewarper.cpp`.

* `double` values are rationals (`ℚ`); `int` values are integers (`Int`).
* The arithmetic of the resolution override of `warpFile`, whose results are converted
  to `int`, is binary64 arithmetic: every product, sum, difference and quotient is
  rounded once by `roundBinary64` (round to nearest, ties to even), as the operations
  of IEEE 754 do. The coordinate arithmetic of the transform chain is exact rational
  arithmetic, over which the round-trip law is stated.
* The parallel arrays `x`, `y`, `z`, `panSuccess` of `nPointCount` entries that a
  GDAL transformer receives are functions on `Fin nPointCount`.
* A `GDALTransformerFunc` together with the context blob `GDALTransformerArg` it is
  called with is a state-passing function: the blob is the state `σ`.
* C truth values are integers: `false` is `0`, `true` is `1`, a test `!v` is `v = 0`.
-/

namespace QgsImageWarper

/-! ## Data model -/

/-- The six coefficients of a `double[6]` geotransform, `cK` being entry `[K]`. -/
structure GeoTransform where
  c0 : ℚ
  c1 : ℚ
  c2 : ℚ
  c3 : ℚ
  c4 : ℚ
  c5 : ℚ
deriving DecidableEq

/-- Determinant of the 2x2 linear part of a geotransform. -/
def GeoTransform.det (g : GeoTransform) : ℚ :=
  g.c1 * g.c5 - g.c2 * g.c4

/-- First coordinate of the affine map of a geotransform applied to a point. -/
def GeoTransform.applyX (g : GeoTransform) (px py : ℚ) : ℚ :=
  g.c0 + px * g.c1 + py * g.c2

/-- Second coordinate of the affine map of a geotransform applied to a point. -/
def GeoTransform.applyY (g : GeoTransform) (px py : ℚ) : ℚ :=
  g.c3 + px * g.c4 + py * g.c5

/-- The buffers a transformer works on: `nPointCount = n` entries each. -/
structure Buffers (n : Nat) where
  x : Fin n → ℚ
  y : Fin n → ℚ
  z : Fin n → ℚ
  panSuccess : Fin n → Int

/-- What a transformer call leaves behind: its `int` return value, the buffers
and the context blob. -/
structure Call (σ : Type) (n : Nat) where
  ret : Int
  buf : Buffers n
  arg : σ

/-- A `GDALTransformerFunc`: called with the context blob, the direction flag,
the point count and the buffers. -/
def GDALTransformerFunc (σ : Type) : Type :=
  σ → Int → (n : Nat) → Buffers n → Call σ n

/-- The struct `TransformChain`; the blob that its pointer `GDALTransformerArg` refers
to is the state passed to `GeoToPixelTransform`. -/
structure TransformChain (σ : Type) where
  GDALTransformer : GDALTransformerFunc σ
  adfGeotransform : GeoTransform
  adfInvGeotransform : GeoTransform

/-- Modelled from the spec: `GDALInvGeoTransform` is a routine of the GDAL library and
is not part of the sources. In exact arithmetic it fails (returns 0, here `none`) when
the determinant of the linear part is zero, and otherwise yields the inverse affine
map, the adjugate divided by the determinant. -/
def GDALInvGeoTransform (g : GeoTransform) : Option GeoTransform :=
  if g.det = 0 then none
  else
    let inv_det := 1 / g.det
    some { c0 := (g.c2 * g.c3 - g.c0 * g.c5) * inv_det
           c1 := g.c5 * inv_det
           c2 := -g.c2 * inv_det
           c3 := (-g.c1 * g.c3 + g.c0 * g.c4) * inv_det
           c4 := -g.c4 * inv_det
           c5 := g.c1 * inv_det }

/-! ## The transform chain -/

/-- The method `QgsImageWarper::addGeoToPixelTransform`: copies the geotransform into a
new chain, inverts it, and returns the null pointer (`none`) when the inversion fails. -/
def addGeoToPixelTransform {σ : Type} (GDALTransformer : GDALTransformerFunc σ)
    (padfGeotransform : GeoTransform) : Option (TransformChain σ) :=
  match GDALInvGeoTransform padfGeotransform with
  | none => none
  | some inv =>
    some { GDALTransformer := GDALTransformer
           adfGeotransform := padfGeotransform
           adfInvGeotransform := inv }

/-- One iteration of the loop of the `!bDstToSrc` branch of `GeoToPixelTransform`:
georeferenced to pixel/line, skipping points flagged as failed. -/
def toPixelStep {n : Nat} (inv : GeoTransform) (b : Buffers n) (i : Fin n) : Buffers n :=
  if b.panSuccess i = 0 then b
  else
    let xP := b.x i
    let yP := b.y i
    { b with
      x := Function.update b.x i (inv.c0 + xP * inv.c1 + yP * inv.c2)
      y := Function.update b.y i (inv.c3 + xP * inv.c4 + yP * inv.c5) }

/-- One iteration of the loop of the `bDstToSrc` branch of `GeoToPixelTransform`:
pixel/line to georeferenced coordinates. -/
def toGeoStep {n : Nat} (g : GeoTransform) (b : Buffers n) (i : Fin n) : Buffers n :=
  let P := b.x i
  let L := b.y i
  { b with
    x := Function.update b.x i (g.c0 + P * g.c1 + L * g.c2)
    y := Function.update b.y i (g.c3 + P * g.c4 + L * g.c5) }

/-- The method `QgsImageWarper::GeoToPixelTransform`. The loops
`for (i = 0; i < nPointCount; ++i)` are folds over the indices
`0, ..., nPointCount - 1` in that order. -/
def GeoToPixelTransform {σ : Type} (pTransformerArg : Option (TransformChain σ))
    (arg : σ) (bDstToSrc : Int) (nPointCount : Nat) (b : Buffers nPointCount) :
    Call σ nPointCount :=
  match pTransformerArg with
  | none => { ret := 0, buf := b, arg := arg }
  | some chain =>
    if bDstToSrc = 0 then
      -- Transform to georeferenced coordinates
      let r := chain.GDALTransformer arg bDstToSrc nPointCount b
      if r.ret = 0 then { ret := 0, buf := r.buf, arg := r.arg }
      else
        -- Transform from georeferenced to pixel/line
        { ret := 1
          buf := (List.finRange nPointCount).foldl (toPixelStep chain.adfInvGeotransform) r.buf
          arg := r.arg }
    else
      -- Transform from pixel/line to georeferenced coordinates
      let b1 := (List.finRange nPointCount).foldl (toGeoStep chain.adfGeotransform) b
      -- Transform from georeferenced coordinates to source pixel/line
      let r := chain.GDALTransformer arg bDstToSrc nPointCount b1
      if r.ret = 0 then { ret := 0, buf := r.buf, arg := r.arg }
      else { ret := 1, buf := r.buf, arg := r.arg }

/-! ## Resolution negotiation and the warp run -/

/-- Nearest integer, ties to the even one. -/
def roundHalfEven (y : ℚ) : Int :=
  if y - ⌊y⌋ < 1 / 2 then ⌊y⌋
  else if 1 / 2 < y - ⌊y⌋ then ⌊y⌋ + 1
  else if ⌊y⌋ % 2 = 0 then ⌊y⌋ else ⌊y⌋ + 1

/-- Exponent of the spacing of the binary64 values around `x`: 52 below the exponent
of the binade of `x`, the binade being at least that of the smallest normal value. -/
def ulpExponent (x : ℚ) : Int :=
  max (Int.log 2 |x|) (-1022) - 52

/-- Rounding of the exact result of a `double` operation to binary64, to nearest with
ties to even, subnormal values included. A result beyond the largest finite value
(the operation overflows) is outside the model. -/
def roundBinary64 (x : ℚ) : ℚ :=
  roundHalfEven (x / 2 ^ ulpExponent x) * 2 ^ ulpExponent x

/-- The conversion `(int) v` of a `double`: the fractional part is discarded
(truncation toward zero). C++ defines it only when the truncated value fits in the
32-bit `int`; the model keeps the exact integer, and statements about converted
values carry the bound `v < 2 ^ 31`. -/
def toInt (v : ℚ) : Int :=
  if 0 ≤ v then ⌊v⌋ else ⌈v⌉

/-- The value of `( maxX - minX )` on line 199, with `minX` and `maxX` of lines 193
and 194: a product, a sum and a difference in binary64. The conversion of the 32-bit
`destPixels` to `double` is exact. -/
def extentX (g : GeoTransform) (destPixels : Int) : ℚ :=
  let minX := g.c0
  let maxX := roundBinary64 (g.c0 + roundBinary64 (g.c1 * destPixels))
  roundBinary64 (maxX - minX)

/-- The value of `( minY - maxY )` on line 200, with `maxY` and `minY` of lines 195
and 196. -/
def extentY (g : GeoTransform) (destLines : Int) : ℚ :=
  let maxY := g.c3
  let minY := roundBinary64 (g.c3 + roundBinary64 (g.c5 * destLines))
  roundBinary64 (minY - maxY)

/-- The value `( ( maxX - minX ) / destResX ) + 0.5` that line 199 converts to `int`:
a quotient and a sum in binary64. -/
def pixelsValue (g : GeoTransform) (destPixels : Int) (destResX : ℚ) : ℚ :=
  roundBinary64 (roundBinary64 (extentX g destPixels / destResX) + 1 / 2)

/-- The value `( ( minY - maxY ) / destResY ) + 0.5` that line 200 converts to `int`. -/
def linesValue (g : GeoTransform) (destLines : Int) (destResY : ℚ) : ℚ :=
  roundBinary64 (roundBinary64 (extentY g destLines / destResY) + 1 / 2)

/-- The local variables of `warpFile` that the resolution override reads and writes. -/
structure Locals where
  adfGeoTransform : GeoTransform
  destPixels : Int
  destLines : Int
  destResX : ℚ
  destResY : ℚ
deriving DecidableEq

/-- The block "If specified, override the suggested resolution with user values" of
`warpFile`. The first component is `some v` when the block leaves `warpFile` with
`return v`; the second is the value of the locals at that point. Comparisons,
negations and copies are exact; the extent and the pixel counts of lines 193 to 200
are computed in binary64 (`pixelsValue`, `linesValue`). A division by zero (the IEEE
result of which has no defined conversion to `int`) follows the convention
`q / 0 = 0` of `ℚ`; statements about the recomputed pixel counts exclude it. -/
def overrideResolution (s : Locals) : Option Int × Locals :=
  if s.destResX ≠ 0 ∨ s.destResY ≠ 0 then
    -- If only one scale has been specified, fill in the other from the GDAL suggestion
    let s := if s.destResX = 0 then { s with destResX := s.adfGeoTransform.c1 } else s
    let s := if s.destResY = 0 then { s with destResY := s.adfGeoTransform.c5 } else s
    -- Make sure user-specified coordinate system has canonical orientation
    let s := if s.destResX < 0 then { s with destResX := -s.destResX } else s
    let s := if s.destResY > 0 then { s with destResY := -s.destResY } else s
    -- Assert that the north-up convention is fulfilled by GDALSuggestedWarpOutput
    if s.adfGeoTransform.c0 ≤ 0 ∨ s.adfGeoTransform.c5 ≥ 0 then (some 0, s)
    else
      -- Find suggested output image extent (in georeferenced units)
      let minX := s.adfGeoTransform.c0
      let maxY := s.adfGeoTransform.c3
      -- Update line and pixel count to match extent at user-specified resolution
      (none,
        { s with
          destPixels := toInt (pixelsValue s.adfGeoTransform s.destPixels s.destResX)
          destLines := toInt (linesValue s.adfGeoTransform s.destLines s.destResY)
          adfGeoTransform :=
            { s.adfGeoTransform with
              c0 := minX, c3 := maxY, c1 := s.destResX, c5 := s.destResY } })
  else (none, s)

/-- The callback `QgsImageWarper::updateWarpProgress`, given the answer of
`progress->wasCanceled()`: returns the continue flag and the new value of the static
`sWarpCanceled`. Setting the dialog value is a GUI effect outside the model. -/
def updateWarpProgress (wasCanceled : Bool) (_sWarpCanceled : Bool) : Int × Bool :=
  if wasCanceled then (0, true) else (1, false)

/-- Modelled from the spec: `GDALWarpOperation::ChunkAndWarpImage` belongs to the GDAL
engine and is not part of the sources. It invokes the progress callback once per chunk
and aborts at the first call that asks to stop; `answers` are the answers of the
progress sink to the calls the engine would make. Returns the value of `sWarpCanceled`
afterwards. -/
def ChunkAndWarpImage : List Bool → Bool → Bool
  | [], sWarpCanceled => sWarpCanceled
  | a :: rest, sWarpCanceled =>
    let r := updateWarpProgress a sWarpCanceled
    if r.1 = 0 then r.2 else ChunkAndWarpImage rest r.2

/-- The answers of the collaborators of `warpFile` during one run. -/
structure Run where
  /-- Answer of `georefTransform.parametersInitialized()`. -/
  parametersInitialized : Bool
  /-- Answer of `openSrcDSAndGetWarpOpt`, which only opens the dataset and fills the
  warp options through GDAL. -/
  openSrcDSAndGetWarpOpt : Bool
  /-- The `CPLErr` of `GDALSuggestedWarpOutput`; `CE_None` is 0. -/
  suggestErr : Int
  /-- Geotransform written by `GDALSuggestedWarpOutput`. -/
  adfGeoTransform : GeoTransform
  /-- Pixel count written by `GDALSuggestedWarpOutput`. -/
  destPixels : Int
  /-- Line count written by `GDALSuggestedWarpOutput`. -/
  destLines : Int
  /-- Answer of `createDestinationDataset`, which only creates and configures the
  dataset through GDAL, for a width, height and geotransform. -/
  createDestinationDataset : Int → Int → GeoTransform → Bool
  /-- Answers of the progress sink to the progress calls of the engine. -/
  wasCanceled : List Bool
  /-- The `CPLErr` of `ChunkAndWarpImage`; `CE_None` is 0. -/
  warpErr : Int

/-- What a run of `warpFile` leaves behind. -/
structure Outcome where
  /-- The `int` returned. -/
  result : Int
  /-- The static flag `sWarpCanceled` on return. -/
  sWarpCanceled : Bool
  /-- Width, height and geotransform written as arguments of the
  `createDestinationDataset` call, if the call is made (the callee declares width and
  height as `uint`). -/
  created : Option (Int × Int × GeoTransform)
  /-- Geotransform handed to `addGeoToPixelTransform`, if the call is made. -/
  chained : Option GeoTransform
deriving DecidableEq

/-- The method `QgsImageWarper::warpFile`, as a function of the requested resolution,
the value of `sWarpCanceled` on entry and the answers of the collaborators. -/
def warpFile (run : Run) (destResX destResY : ℚ) (sWarpCanceled : Bool) : Outcome :=
  if !run.parametersInitialized then
    { result := 0, sWarpCanceled := sWarpCanceled, created := none, chained := none }
  else if !run.openSrcDSAndGetWarpOpt then
    { result := 0, sWarpCanceled := sWarpCanceled, created := none, chained := none }
  else if run.suggestErr ≠ 0 then
    { result := 0, sWarpCanceled := sWarpCanceled, created := none, chained := none }
  else
    -- If specified, override the suggested resolution with user values
    match overrideResolution
        { adfGeoTransform := run.adfGeoTransform
          destPixels := run.destPixels
          destLines := run.destLines
          destResX := destResX
          destResY := destResY } with
    | (some v, _) =>
      { result := v, sWarpCanceled := sWarpCanceled, created := none, chained := none }
    | (none, s) =>
      if !run.createDestinationDataset s.destPixels s.destLines s.adfGeoTransform then
        { result := 0, sWarpCanceled := sWarpCanceled
          created := some (s.destPixels, s.destLines, s.adfGeoTransform), chained := none }
      else
        -- addGeoToPixelTransform, then ChunkAndWarpImage with updateWarpProgress
        let canceled := ChunkAndWarpImage run.wasCanceled sWarpCanceled
        { result := if canceled then -1 else if run.warpErr = 0 then 1 else 0
          sWarpCanceled := canceled
          created := some (s.destPixels, s.destLines, s.adfGeoTransform)
          chained := some s.adfGeoTransform }

/-! ## Vocabulary of the statements -/

/-- Both composites of the two affine maps are the identity on points. -/
def GeoTransform.IsInverseOf (inv g : GeoTransform) : Prop :=
  ∀ px py : ℚ,
    inv.applyX (g.applyX px py) (g.applyY px py) = px ∧
    inv.applyY (g.applyX px py) (g.applyY px py) = py ∧
    g.applyX (inv.applyX px py) (inv.applyY px py) = px ∧
    g.applyY (inv.applyX px py) (inv.applyY px py) = py

/-- A transformer that returns its points unchanged, marks every point successful and
returns true, whatever the direction. -/
def IsIdentityTransformer {σ : Type} (F : GDALTransformerFunc σ) : Prop :=
  ∀ (arg : σ) (d : Int) (n : Nat) (b : Buffers n),
    (F arg d n b).ret ≠ 0 ∧
    (F arg d n b).buf.x = b.x ∧
    (F arg d n b).buf.y = b.y ∧
    (F arg d n b).buf.z = b.z ∧
    ∀ i, (F arg d n b).buf.panSuccess i ≠ 0

/-- A finite binary64 value: an integer of magnitude below 2^53 times a power of two
with exponent between -1074 and 971. -/
def IsDouble (x : ℚ) : Prop :=
  ∃ m e : Int, |m| < 2 ^ 53 ∧ -1074 ≤ e ∧ e ≤ 971 ∧ x = m * 2 ^ e

/-- Requested X resolution after zero-filling from the suggestion and sign
normalisation (positive). -/
def normResX (c1 destResX : ℚ) : ℚ :=
  |if destResX = 0 then c1 else destResX|

/-- Requested Y resolution after zero-filling from the suggestion and sign
normalisation (negative). -/
def normResY (c5 destResY : ℚ) : ℚ :=
  -|if destResY = 0 then c5 else destResY|

/-! ## Concrete inputs -/

/-- An identity transformer; its context counts the calls made. -/
def identityTransformer : GDALTransformerFunc Nat :=
  fun arg _ _ b => { ret := 1, buf := { b with panSuccess := fun _ => 1 }, arg := arg + 1 }

/-- A transformer that shifts every point by one in x and flags the points of even
index as failed. -/
def evenFailingTransformer : GDALTransformerFunc Nat :=
  fun arg _ _ b =>
    { ret := 1
      buf := { b with
               x := fun i => b.x i + 1
               panSuccess := fun i => if i.val % 2 = 0 then 0 else 1 }
      arg := arg + 1 }

/-- The suggested geotransform of the worked example of the spec. -/
def suggestedExample : GeoTransform :=
  { c0 := 1 / 10000, c1 := 1, c2 := 0, c3 := 1000, c4 := 0, c5 := -1 }

/-- A suggestion with decimal coefficients: c0 and c1 are the binary64 values of 0.1
and 0.7. -/
def decimalSuggestion : GeoTransform :=
  { c0 := 3602879701896397 / 2 ^ 55, c1 := 3152519739159347 / 2 ^ 52, c2 := 0, c3 := 5,
    c4 := 0, c5 := -1 }

/-- A suggestion whose origin X is 2^53, where binary64 values are 2 apart. -/
def wideSuggestion : GeoTransform :=
  { c0 := 2 ^ 53, c1 := 1, c2 := 0, c3 := 5, c4 := 0, c5 := -1 }

/-- A suggestion with zero X pixel size that passes the orientation check. -/
def flatSuggestion : GeoTransform :=
  { c0 := 1, c1 := 0, c2 := 0, c3 := 0, c4 := 0, c5 := -1 }

/-- A suggestion that is not north-up: origin X negative, Y pixel size positive. -/
def southUpSuggestion : GeoTransform :=
  { c0 := -5, c1 := 1, c2 := 0, c3 := 10, c4 := 0, c5 := 1 }

/-- Two points. -/
def twoPoints : Buffers 2 :=
  { x := fun i => if i.val = 0 then 3 else 7
    y := fun i => if i.val = 0 then 4 else 9
    z := fun _ => 0
    panSuccess := fun _ => 0 }

/-- A chain over `evenFailingTransformer` whose stored inverse halves coordinates. -/
def halvingChain : TransformChain Nat :=
  { GDALTransformer := evenFailingTransformer
    adfGeotransform := { c0 := 0, c1 := 2, c2 := 0, c3 := 0, c4 := 0, c5 := 2 }
    adfInvGeotransform := { c0 := 0, c1 := 1 / 2, c2 := 0, c3 := 0, c4 := 0, c5 := 1 / 2 } }

/-- A run in which every collaborator consulted before the engine succeeds. The
parameters are the suggested geometry, the answers of the progress sink and the
`CPLErr` of the engine. -/
def smoothRun (g : GeoTransform) (w h : Int) (answers : List Bool) (err : Int) : Run :=
  { parametersInitialized := true
    openSrcDSAndGetWarpOpt := true
    suggestErr := 0
    adfGeoTransform := g
    destPixels := w
    destLines := h
    createDestinationDataset := fun _ _ _ => true
    wasCanceled := answers
    warpErr := err }

/-! ## The loops of `GeoToPixelTransform` -/

theorem Buffers.ext_iff_fields {n : Nat} (a b : Buffers n) :
    a = b ↔ a.x = b.x ∧ a.y = b.y ∧ a.z = b.z ∧ a.panSuccess = b.panSuccess := by
  cases a; cases b; simp

/-- Invariant of the pixel/line to georeferenced loop: after the indices of a
duplicate-free list have been visited, exactly those entries hold the mapped point. -/
theorem foldl_toGeoStep {n : Nat} (g : GeoTransform) (l : List (Fin n)) (hl : l.Nodup)
    (b : Buffers n) :
    l.foldl (toGeoStep g) b =
      { x := fun j => if j ∈ l then g.applyX (b.x j) (b.y j) else b.x j
        y := fun j => if j ∈ l then g.applyY (b.x j) (b.y j) else b.y j
        z := b.z
        panSuccess := b.panSuccess } := by
  induction l generalizing b with
  | nil => simp
  | cons i l ih =>
    have hi : i ∉ l := (List.nodup_cons.mp hl).1
    rw [List.foldl_cons, ih (List.nodup_cons.mp hl).2]
    rw [Buffers.ext_iff_fields]
    refine ⟨?_, ?_, rfl, rfl⟩
    · funext j
      by_cases hj : j ∈ l
      · have hji : j ≠ i := fun h => hi (h ▸ hj)
        simp [hj, toGeoStep, Function.update_noteq hji]
      · by_cases hji : j = i
        · subst hji
          simp [hj, toGeoStep, GeoTransform.applyX]
        · simp [hj, hji, toGeoStep, Function.update_noteq hji]
    · funext j
      by_cases hj : j ∈ l
      · have hji : j ≠ i := fun h => hi (h ▸ hj)
        simp [hj, toGeoStep, Function.update_noteq hji]
      · by_cases hji : j = i
        · subst hji
          simp [hj, toGeoStep, GeoTransform.applyY]
        · simp [hj, hji, toGeoStep, Function.update_noteq hji]

/-- The whole pixel/line to georeferenced loop maps every point. -/
theorem toGeo_loop {n : Nat} (g : GeoTransform) (b : Buffers n) :
    (List.finRange n).foldl (toGeoStep g) b =
      { x := fun j => g.applyX (b.x j) (b.y j)
        y := fun j => g.applyY (b.x j) (b.y j)
        z := b.z
        panSuccess := b.panSuccess } := by
  rw [foldl_toGeoStep g _ (List.nodup_finRange n)]
  simp [List.mem_finRange]

theorem toPixelStep_panSuccess {n : Nat} (inv : GeoTransform) (b : Buffers n) (i : Fin n) :
    (toPixelStep inv b i).panSuccess = b.panSuccess := by
  unfold toPixelStep
  split <;> rfl

/-- Invariant of the georeferenced to pixel/line loop: after the indices of a
duplicate-free list have been visited, exactly the visited entries whose flag is
non-zero hold the mapped point. -/
theorem foldl_toPixelStep {n : Nat} (inv : GeoTransform) (l : List (Fin n)) (hl : l.Nodup)
    (b : Buffers n) :
    l.foldl (toPixelStep inv) b =
      { x := fun j =>
          if j ∈ l ∧ b.panSuccess j ≠ 0 then inv.applyX (b.x j) (b.y j) else b.x j
        y := fun j =>
          if j ∈ l ∧ b.panSuccess j ≠ 0 then inv.applyY (b.x j) (b.y j) else b.y j
        z := b.z
        panSuccess := b.panSuccess } := by
  induction l generalizing b with
  | nil => simp
  | cons i l ih =>
    have hi : i ∉ l := (List.nodup_cons.mp hl).1
    rw [List.foldl_cons, ih (List.nodup_cons.mp hl).2, toPixelStep_panSuccess]
    rw [Buffers.ext_iff_fields]
    by_cases hs : b.panSuccess i = 0
    · have hstep : toPixelStep inv b i = b := by simp [toPixelStep, hs]
      rw [hstep]
      refine ⟨?_, ?_, rfl, rfl⟩
      · funext j
        by_cases hji : j = i
        · subst hji
          simp [hi, hs]
        · simp [hji]
      · funext j
        by_cases hji : j = i
        · subst hji
          simp [hi, hs]
        · simp [hji]
    · refine ⟨?_, ?_, ?_, rfl⟩
      · funext j
        by_cases hji : j = i
        · subst hji
          simp [hi, hs, toPixelStep, GeoTransform.applyX]
        · simp [hji, hs, toPixelStep, Function.update_noteq hji]
      · funext j
        by_cases hji : j = i
        · subst hji
          simp [hi, hs, toPixelStep, GeoTransform.applyY]
        · simp [hji, hs, toPixelStep, Function.update_noteq hji]
      · simp [toPixelStep, hs]

/-- The whole georeferenced to pixel/line loop maps exactly the points whose flag is
non-zero. -/
theorem toPixel_loop {n : Nat} (inv : GeoTransform) (b : Buffers n) :
    (List.finRange n).foldl (toPixelStep inv) b =
      { x := fun j => if b.panSuccess j ≠ 0 then inv.applyX (b.x j) (b.y j) else b.x j
        y := fun j => if b.panSuccess j ≠ 0 then inv.applyY (b.x j) (b.y j) else b.y j
        z := b.z
        panSuccess := b.panSuccess } := by
  rw [foldl_toPixelStep inv _ (List.nodup_finRange n)]
  simp [List.mem_finRange]

/-! ## Construction of the chain -/

theorem GDALInvGeoTransform_eq_none (g : GeoTransform) (h : g.det = 0) :
    GDALInvGeoTransform g = none := by
  simp [GDALInvGeoTransform, h]

theorem GDALInvGeoTransform_isInverse (g : GeoTransform) (h : g.det ≠ 0) :
    ∃ inv, GDALInvGeoTransform g = some inv ∧ inv.IsInverseOf g := by
  refine ⟨_, by simp only [GDALInvGeoTransform, h, if_false]; rfl, ?_⟩
  have hd : g.c1 * g.c5 - g.c2 * g.c4 ≠ 0 := h
  intro px py
  simp only [GeoTransform.applyX, GeoTransform.applyY, GeoTransform.det]
  refine ⟨?_, ?_, ?_, ?_⟩ <;> field_simp <;> ring

theorem identityTransformer_isIdentity : IsIdentityTransformer identityTransformer := by
  intro arg d n b
  simp [identityTransformer]

/-- C6: a geotransform with zero determinant makes `addGeoToPixelTransform` return the
null chain, never a partially built one; a geotransform with non-zero determinant
yields a chain that stores the transformer, the input geotransform and an inverse of
that geotransform. -/
theorem addGeoToPixelTransform_null_iff_degenerate {σ : Type} (F : GDALTransformerFunc σ)
    (g : GeoTransform) :
    (g.c1 * g.c5 - g.c2 * g.c4 = 0 → addGeoToPixelTransform F g = none) ∧
    (g.c1 * g.c5 - g.c2 * g.c4 ≠ 0 →
      ∃ chain : TransformChain σ,
        addGeoToPixelTransform F g = some chain ∧
        chain.GDALTransformer = F ∧
        chain.adfGeotransform = g ∧
        chain.adfInvGeotransform.IsInverseOf g) := by
  constructor
  · intro h
    have h0 : g.det = 0 := h
    simp [addGeoToPixelTransform, GDALInvGeoTransform_eq_none g h0]
  · intro h
    obtain ⟨inv, hinv, hprop⟩ := GDALInvGeoTransform_isInverse g h
    exact ⟨⟨F, g, inv⟩, by simp [addGeoToPixelTransform, hinv], rfl, rfl, hprop⟩

/-- The all-zero linear part of the spec gives the null chain, and the geotransform of
the worked example gives a chain. -/
theorem addGeoToPixelTransform_null_iff_degenerate_witness :
    addGeoToPixelTransform identityTransformer
        { c0 := 7, c1 := 0, c2 := 0, c3 := 9, c4 := 0, c5 := 0 } = none ∧
    ∃ chain : TransformChain Nat,
      addGeoToPixelTransform identityTransformer suggestedExample = some chain ∧
      chain.GDALTransformer = identityTransformer ∧
      chain.adfGeotransform = suggestedExample ∧
      chain.adfInvGeotransform.IsInverseOf suggestedExample :=
  ⟨(addGeoToPixelTransform_null_iff_degenerate identityTransformer _).1 (by norm_num),
   (addGeoToPixelTransform_null_iff_degenerate identityTransformer suggestedExample).2
     (by norm_num [suggestedExample])⟩

/-! ## Invocation of the chain -/

/-- C7: in the forward direction, when the transformer returns true, the success flags
on return are those the transformer produced, a point flagged failed keeps the
coordinates the transformer left, and a point flagged successful holds the stored
inverse geotransform applied to the output of the transformer. -/
theorem GeoToPixelTransform_forward_preserves_flags {σ : Type} (chain : TransformChain σ)
    (arg : σ) (n : Nat) (b : Buffers n)
    (hF : (chain.GDALTransformer arg 0 n b).ret ≠ 0) :
    (GeoToPixelTransform (some chain) arg 0 n b).ret = 1 ∧
    (GeoToPixelTransform (some chain) arg 0 n b).arg = (chain.GDALTransformer arg 0 n b).arg ∧
    (GeoToPixelTransform (some chain) arg 0 n b).buf.panSuccess =
      (chain.GDALTransformer arg 0 n b).buf.panSuccess ∧
    (GeoToPixelTransform (some chain) arg 0 n b).buf.z = (chain.GDALTransformer arg 0 n b).buf.z ∧
    ∀ i : Fin n,
      ((chain.GDALTransformer arg 0 n b).buf.panSuccess i = 0 →
        (GeoToPixelTransform (some chain) arg 0 n b).buf.x i =
          (chain.GDALTransformer arg 0 n b).buf.x i ∧
        (GeoToPixelTransform (some chain) arg 0 n b).buf.y i =
          (chain.GDALTransformer arg 0 n b).buf.y i) ∧
      ((chain.GDALTransformer arg 0 n b).buf.panSuccess i ≠ 0 →
        (GeoToPixelTransform (some chain) arg 0 n b).buf.x i =
          chain.adfInvGeotransform.c0
            + (chain.GDALTransformer arg 0 n b).buf.x i * chain.adfInvGeotransform.c1
            + (chain.GDALTransformer arg 0 n b).buf.y i * chain.adfInvGeotransform.c2 ∧
        (GeoToPixelTransform (some chain) arg 0 n b).buf.y i =
          chain.adfInvGeotransform.c3
            + (chain.GDALTransformer arg 0 n b).buf.x i * chain.adfInvGeotransform.c4
            + (chain.GDALTransformer arg 0 n b).buf.y i * chain.adfInvGeotransform.c5) := by
  have hout : GeoToPixelTransform (some chain) arg 0 n b =
      { ret := 1
        buf := (List.finRange n).foldl (toPixelStep chain.adfInvGeotransform)
          (chain.GDALTransformer arg 0 n b).buf
        arg := (chain.GDALTransformer arg 0 n b).arg } := by
    simp [GeoToPixelTransform, hF]
  rw [hout, toPixel_loop]
  refine ⟨rfl, rfl, rfl, rfl, fun i => ⟨fun h0 => ?_, fun h1 => ?_⟩⟩
  · simp [h0]
  · simp [h1, GeoTransform.applyX, GeoTransform.applyY]

/-- Two points through `halvingChain`: the transformer flags point 0 as failed and
point 1 as successful, and the chain keeps both flags. -/
theorem GeoToPixelTransform_forward_preserves_flags_witness :
    (halvingChain.GDALTransformer 0 0 2 twoPoints).ret ≠ 0 ∧
    (GeoToPixelTransform (some halvingChain) 0 0 2 twoPoints).buf.panSuccess =
      (halvingChain.GDALTransformer 0 0 2 twoPoints).buf.panSuccess :=
  ⟨by decide,
   (GeoToPixelTransform_forward_preserves_flags halvingChain 0 2 twoPoints (by decide)).2.2.1⟩

/-- C10: in the destination-to-source direction the transformer is run once, with the
same direction flag, on the points mapped by the stored geotransform (z and the flags
as passed in); buffers and context on return are the ones that run left, and the call
returns false exactly when that run returned false. A null chain returns false. -/
theorem GeoToPixelTransform_dstToSrc {σ : Type} (chain : TransformChain σ)
    (arg : σ) (n : Nat) (b : Buffers n) :
    GeoToPixelTransform (some chain) arg 1 n b =
      { ret :=
          if (chain.GDALTransformer arg 1 n
                { x := fun i => chain.adfGeotransform.c0 + b.x i * chain.adfGeotransform.c1
                        + b.y i * chain.adfGeotransform.c2
                  y := fun i => chain.adfGeotransform.c3 + b.x i * chain.adfGeotransform.c4
                        + b.y i * chain.adfGeotransform.c5
                  z := b.z
                  panSuccess := b.panSuccess }).ret = 0
          then 0 else 1
        buf :=
          (chain.GDALTransformer arg 1 n
                { x := fun i => chain.adfGeotransform.c0 + b.x i * chain.adfGeotransform.c1
                        + b.y i * chain.adfGeotransform.c2
                  y := fun i => chain.adfGeotransform.c3 + b.x i * chain.adfGeotransform.c4
                        + b.y i * chain.adfGeotransform.c5
                  z := b.z
                  panSuccess := b.panSuccess }).buf
        arg :=
          (chain.GDALTransformer arg 1 n
                { x := fun i => chain.adfGeotransform.c0 + b.x i * chain.adfGeotransform.c1
                        + b.y i * chain.adfGeotransform.c2
                  y := fun i => chain.adfGeotransform.c3 + b.x i * chain.adfGeotransform.c4
                        + b.y i * chain.adfGeotransform.c5
                  z := b.z
                  panSuccess := b.panSuccess }).arg } ∧
    ((GeoToPixelTransform (some chain) arg 1 n b).ret = 0 ↔
      (chain.GDALTransformer arg 1 n
                { x := fun i => chain.adfGeotransform.c0 + b.x i * chain.adfGeotransform.c1
                        + b.y i * chain.adfGeotransform.c2
                  y := fun i => chain.adfGeotransform.c3 + b.x i * chain.adfGeotransform.c4
                        + b.y i * chain.adfGeotransform.c5
                  z := b.z
                  panSuccess := b.panSuccess }).ret = 0) ∧
    GeoToPixelTransform (none : Option (TransformChain σ)) arg 1 n b =
      { ret := 0, buf := b, arg := arg } := by
  have hloop := toGeo_loop chain.adfGeotransform b
  simp only [GeoTransform.applyX, GeoTransform.applyY] at hloop
  refine ⟨?_, ?_, rfl⟩
  · simp only [GeoToPixelTransform, one_ne_zero, if_false, hloop]
    split <;> rfl
  · simp only [GeoToPixelTransform, one_ne_zero, if_false, hloop]
    split <;> simp_all

/-- C1: for a geotransform with non-zero determinant and an identity transformer,
running the chain built by `addGeoToPixelTransform` destination-to-source and then
source-to-destination on the result gives back the original x and y (and z) of every
point, both calls returning true. -/
theorem GeoToPixelTransform_roundtrip {σ : Type} (F : GDALTransformerFunc σ)
    (hF : IsIdentityTransformer F) (g : GeoTransform)
    (hdet : g.c1 * g.c5 - g.c2 * g.c4 ≠ 0) (arg : σ) (n : Nat) (b : Buffers n) :
    (GeoToPixelTransform (addGeoToPixelTransform F g) arg 1 n b).ret = 1 ∧
    (GeoToPixelTransform (addGeoToPixelTransform F g)
        (GeoToPixelTransform (addGeoToPixelTransform F g) arg 1 n b).arg 0 n
        (GeoToPixelTransform (addGeoToPixelTransform F g) arg 1 n b).buf).ret = 1 ∧
    (GeoToPixelTransform (addGeoToPixelTransform F g)
        (GeoToPixelTransform (addGeoToPixelTransform F g) arg 1 n b).arg 0 n
        (GeoToPixelTransform (addGeoToPixelTransform F g) arg 1 n b).buf).buf.x = b.x ∧
    (GeoToPixelTransform (addGeoToPixelTransform F g)
        (GeoToPixelTransform (addGeoToPixelTransform F g) arg 1 n b).arg 0 n
        (GeoToPixelTransform (addGeoToPixelTransform F g) arg 1 n b).buf).buf.y = b.y ∧
    (GeoToPixelTransform (addGeoToPixelTransform F g)
        (GeoToPixelTransform (addGeoToPixelTransform F g) arg 1 n b).arg 0 n
        (GeoToPixelTransform (addGeoToPixelTransform F g) arg 1 n b).buf).buf.z = b.z := by
  obtain ⟨inv, hinv, hprop⟩ := GDALInvGeoTransform_isInverse g hdet
  have hchain : addGeoToPixelTransform F g = some ⟨F, g, inv⟩ := by
    simp [addGeoToPixelTransform, hinv]
  rw [hchain]
  -- first call: destination pixel to source pixel
  have hb1 := toGeo_loop g b
  generalize hG : (List.finRange n).foldl (toGeoStep g) b = b1 at hb1
  obtain ⟨hr1, hx1, hy1, hz1, _⟩ := hF arg 1 n b1
  have h1 : GeoToPixelTransform (some ⟨F, g, inv⟩) arg 1 n b =
      { ret := 1, buf := (F arg 1 n b1).buf, arg := (F arg 1 n b1).arg } := by
    simp [GeoToPixelTransform, hr1, hG]
  rw [h1]
  -- second call: source pixel to destination pixel
  generalize F arg 1 n b1 = r1 at hr1 hx1 hy1 hz1
  obtain ⟨hr2, hx2, hy2, hz2, hs2⟩ := hF r1.arg 0 n r1.buf
  have h2 : GeoToPixelTransform (some ⟨F, g, inv⟩) r1.arg 0 n r1.buf =
      { ret := 1
        buf := (List.finRange n).foldl (toPixelStep inv) (F r1.arg 0 n r1.buf).buf
        arg := (F r1.arg 0 n r1.buf).arg } := by
    simp [GeoToPixelTransform, hr2]
  rw [h2, toPixel_loop]
  generalize F r1.arg 0 n r1.buf = r2 at hr2 hx2 hy2 hz2 hs2
  refine ⟨rfl, rfl, ?_, ?_, ?_⟩
  · funext j
    simp only [hs2 j, ne_eq, not_false_eq_true, if_true, hx2, hy2, hx1, hy1, hb1]
    exact (hprop (b.x j) (b.y j)).1
  · funext j
    simp only [hs2 j, ne_eq, not_false_eq_true, if_true, hx2, hy2, hx1, hy1, hb1]
    exact (hprop (b.x j) (b.y j)).2.1
  · simp only [hz2, hz1, hb1]

/-- Two points through the chain of the worked example and back. -/
theorem GeoToPixelTransform_roundtrip_witness :
    IsIdentityTransformer identityTransformer ∧
    suggestedExample.c1 * suggestedExample.c5 - suggestedExample.c2 * suggestedExample.c4 ≠ 0 ∧
    (GeoToPixelTransform (addGeoToPixelTransform identityTransformer suggestedExample)
        (GeoToPixelTransform (addGeoToPixelTransform identityTransformer suggestedExample)
          0 1 2 twoPoints).arg 0 2
        (GeoToPixelTransform (addGeoToPixelTransform identityTransformer suggestedExample)
          0 1 2 twoPoints).buf).buf.x = twoPoints.x ∧
    (GeoToPixelTransform (addGeoToPixelTransform identityTransformer suggestedExample)
        (GeoToPixelTransform (addGeoToPixelTransform identityTransformer suggestedExample)
          0 1 2 twoPoints).arg 0 2
        (GeoToPixelTransform (addGeoToPixelTransform identityTransformer suggestedExample)
          0 1 2 twoPoints).buf).buf.y = twoPoints.y :=
  ⟨identityTransformer_isIdentity, by norm_num [suggestedExample],
   (GeoToPixelTransform_roundtrip identityTransformer identityTransformer_isIdentity
      suggestedExample (by norm_num [suggestedExample]) 0 2 twoPoints).2.2.1,
   (GeoToPixelTransform_roundtrip identityTransformer identityTransformer_isIdentity
      suggestedExample (by norm_num [suggestedExample]) 0 2 twoPoints).2.2.2.1⟩

/-! ## Resolution negotiation -/

theorem toInt_of_nonneg {v : ℚ} (h : 0 ≤ v) : toInt v = ⌊v⌋ := by
  simp [toInt, h]

theorem toInt_eq_floor_of {v : ℚ} {k : Int} (h0 : 0 ≤ v) (h1 : (k : ℚ) ≤ v) (h2 : v < k + 1) :
    toInt v = k := by
  rw [toInt_of_nonneg h0, Int.floor_eq_iff]
  exact ⟨h1, h2⟩

theorem le_roundHalfEven {k : Int} {y : ℚ} (h : (k : ℚ) ≤ y) : k ≤ roundHalfEven y := by
  have hk : k ≤ ⌊y⌋ := Int.le_floor.mpr h
  unfold roundHalfEven
  split_ifs <;> omega

theorem roundHalfEven_le {k : Int} {y : ℚ} (h : y ≤ (k : ℚ)) : roundHalfEven y ≤ k := by
  unfold roundHalfEven
  by_cases hy : y = ⌊y⌋
  · have h0 : y - ⌊y⌋ < 1 / 2 := by
      rw [sub_eq_zero.mpr hy]; norm_num
    rw [if_pos h0]
    have : (⌊y⌋ : ℚ) ≤ k := by rw [← hy]; exact h
    exact_mod_cast this
  · have hlt : (⌊y⌋ : ℚ) < y := lt_of_le_of_ne (Int.floor_le y) (fun h => hy h.symm)
    have : (⌊y⌋ : ℚ) < k := lt_of_lt_of_le hlt h
    have hk : ⌊y⌋ + 1 ≤ k := by exact_mod_cast this
    have hk' : ⌊y⌋ ≤ k := by omega
    split_ifs <;> omega


theorem ulp_pos (x : ℚ) : (0 : ℚ) < 2 ^ ulpExponent x := zpow_pos (by norm_num) _

/-- A value that is an integer multiple of the spacing around `x` is not passed from
below by rounding. -/
theorem le_roundBinary64_of_multiple {x : ℚ} {k : Int}
    (h : (k : ℚ) * 2 ^ ulpExponent x ≤ x) : (k : ℚ) * 2 ^ ulpExponent x ≤ roundBinary64 x := by
  have hu := ulp_pos x
  have hk : (k : ℚ) ≤ x / 2 ^ ulpExponent x := (le_div_iff₀ hu).mpr h
  have := le_roundHalfEven hk
  unfold roundBinary64
  exact mul_le_mul_of_nonneg_right (by exact_mod_cast this) hu.le

theorem roundBinary64_le_of_multiple {x : ℚ} {k : Int}
    (h : x ≤ (k : ℚ) * 2 ^ ulpExponent x) : roundBinary64 x ≤ (k : ℚ) * 2 ^ ulpExponent x := by
  have hu := ulp_pos x
  have hk : x / 2 ^ ulpExponent x ≤ (k : ℚ) := (div_le_iff₀ hu).mpr h
  have := roundHalfEven_le hk
  unfold roundBinary64
  exact mul_le_mul_of_nonneg_right (by exact_mod_cast this) hu.le

/-- A double whose exponent is at least the spacing exponent around `x` is an integer
multiple of that spacing. -/
theorem multiple_of_exponent_le (x : ℚ) (m : Int) {e : Int} (h : ulpExponent x ≤ e) :
    ∃ k : Int, (m : ℚ) * 2 ^ e = (k : ℚ) * 2 ^ ulpExponent x := by
  refine ⟨m * 2 ^ (e - ulpExponent x).toNat, ?_⟩
  have he : e = ulpExponent x + ((e - ulpExponent x).toNat : Int) := by
    rw [Int.toNat_of_nonneg (by omega)]; ring
  conv_lhs => rw [he, zpow_add₀ (by norm_num : (2 : ℚ) ≠ 0), zpow_natCast]
  push_cast
  ring

/-- A double whose exponent is below the spacing exponent around `x` lies strictly
inside the binade bound of `x`, which `x` itself reaches in magnitude. -/
theorem small_of_exponent_lt {x : ℚ} {m e : Int} (hx0 : x ≠ 0) (hm : |m| < 2 ^ 53)
    (he : -1074 ≤ e) (h : e < ulpExponent x) :
    |(m : ℚ) * 2 ^ e| < 2 ^ 52 * 2 ^ ulpExponent x ∧ 2 ^ 52 * 2 ^ ulpExponent x ≤ |x| := by
  have h2 : (0 : ℚ) < 2 := by norm_num
  constructor
  · have hmq : |(m : ℚ)| < 2 ^ 53 := by exact_mod_cast hm
    have hpow : (2 : ℚ) ^ e ≤ 2 ^ (ulpExponent x - 1) :=
      zpow_le_zpow_right₀ (by norm_num) (by omega)
    have h1 : (2 : ℚ) ^ (ulpExponent x - 1) = 2 ^ ulpExponent x / 2 := by
      rw [zpow_sub₀ (by norm_num : (2 : ℚ) ≠ 0), zpow_one]
    rw [abs_mul, abs_of_pos (zpow_pos h2 e)]
    have hu := ulp_pos x
    calc |(m : ℚ)| * 2 ^ e ≤ |(m : ℚ)| * (2 ^ ulpExponent x / 2) := by
          rw [← h1]; exact mul_le_mul_of_nonneg_left hpow (abs_nonneg _)
      _ < 2 ^ 53 * (2 ^ ulpExponent x / 2) := by
          exact mul_lt_mul_of_pos_right hmq (by positivity)
      _ = 2 ^ 52 * 2 ^ ulpExponent x := by ring
  · have hlog : ulpExponent x = Int.log 2 |x| - 52 := by
      unfold ulpExponent at h ⊢
      have : -1022 < Int.log 2 |x| := by
        by_contra hc
        push_neg at hc
        rw [max_eq_right hc] at h
        omega
      rw [max_eq_left this.le]
    have hx : 0 < |x| := abs_pos.mpr hx0
    have hle := Int.zpow_log_le_self (by norm_num : 1 < 2) hx
    have : (2 : ℚ) ^ 52 * 2 ^ ulpExponent x = 2 ^ Int.log 2 |x| := by
      rw [hlog, zpow_sub₀ (by norm_num : (2 : ℚ) ≠ 0)]
      field_simp
      ring
    rw [this]
    exact_mod_cast hle


theorem roundBinary64_zero : roundBinary64 0 = 0 := by
  simp [roundBinary64, roundHalfEven]

/-- Rounding never passes a binary64 value from below. -/
theorem le_roundBinary64 {f x : ℚ} (hf : IsDouble f) (h : f ≤ x) : f ≤ roundBinary64 x := by
  obtain ⟨m, e, hm, he, _, rfl⟩ := hf
  by_cases hx0 : x = 0
  · subst hx0
    rw [roundBinary64_zero]
    exact h
  by_cases hexp : ulpExponent x ≤ e
  · obtain ⟨k, hk⟩ := multiple_of_exponent_le x m hexp
    rw [hk] at h ⊢
    exact le_roundBinary64_of_multiple h
  · obtain ⟨hsmall, hbig⟩ := small_of_exponent_lt hx0 hm he (not_le.mp hexp)
    have hu := ulp_pos x
    rcases lt_or_gt_of_ne hx0 with hneg | hpos
    · rw [abs_of_neg hneg] at hbig
      have := (abs_lt.mp hsmall).1
      linarith
    · rw [abs_of_pos hpos] at hbig
      have hk : (((2 : Int) ^ 52 : Int) : ℚ) * 2 ^ ulpExponent x ≤ x := by
        push_cast
        exact hbig
      have := le_roundBinary64_of_multiple hk
      push_cast at this
      have := (abs_lt.mp hsmall).2
      linarith

/-- Rounding never passes a binary64 value from above. -/
theorem roundBinary64_le {f x : ℚ} (hf : IsDouble f) (h : x ≤ f) : roundBinary64 x ≤ f := by
  obtain ⟨m, e, hm, he, _, rfl⟩ := hf
  by_cases hx0 : x = 0
  · subst hx0
    rw [roundBinary64_zero]
    exact h
  by_cases hexp : ulpExponent x ≤ e
  · obtain ⟨k, hk⟩ := multiple_of_exponent_le x m hexp
    rw [hk] at h ⊢
    exact roundBinary64_le_of_multiple h
  · obtain ⟨hsmall, hbig⟩ := small_of_exponent_lt hx0 hm he (not_le.mp hexp)
    have hu := ulp_pos x
    rcases lt_or_gt_of_ne hx0 with hneg | hpos
    · rw [abs_of_neg hneg] at hbig
      have hk : x ≤ (((-(2 : Int) ^ 52 : Int) : ℚ)) * 2 ^ ulpExponent x := by
        push_cast
        linarith
      have := roundBinary64_le_of_multiple hk
      push_cast at this
      have := (abs_lt.mp hsmall).1
      linarith
    · rw [abs_of_pos hpos] at hbig
      have := (abs_lt.mp hsmall).2
      linarith

/-- A binary64 value is not changed by rounding. -/
theorem roundBinary64_of_isDouble {f : ℚ} (hf : IsDouble f) : roundBinary64 f = f :=
  le_antisymm (roundBinary64_le hf le_rfl) (le_roundBinary64 hf le_rfl)

theorem roundBinary64_eq {x : ℚ} (m e : Int) (hm : |m| < 2 ^ 53) (he : -1074 ≤ e)
    (he2 : e ≤ 971) (hx : x = m * 2 ^ e) : roundBinary64 x = x :=
  roundBinary64_of_isDouble ⟨m, e, hm, he, he2, hx⟩

theorem ulpExponent_eq {x : ℚ} (e : Int) (he : -1022 ≤ e) (h1 : 2 ^ e ≤ |x|)
    (h2 : |x| < 2 ^ (e + 1)) : ulpExponent x = e - 52 := by
  have hpos : 0 < |x| := lt_of_lt_of_le (zpow_pos (by norm_num) e) h1
  have hlog : Int.log 2 |x| = e := by
    apply le_antisymm
    · have := (Int.lt_zpow_iff_log_lt (by norm_num : 1 < 2) hpos).mp (by exact_mod_cast h2)
      omega
    · exact (Int.zpow_le_iff_le_log (by norm_num : 1 < 2) hpos).mp (by exact_mod_cast h1)
  unfold ulpExponent
  rw [hlog, max_eq_left he]

theorem roundHalfEven_eq {y : ℚ} (n : Int) (h1 : (n : ℚ) - 1 / 2 < y) (h2 : y < n + 1 / 2) :
    roundHalfEven y = n := by
  unfold roundHalfEven
  by_cases hn : (n : ℚ) ≤ y
  · have hfl : ⌊y⌋ = n := Int.floor_eq_iff.mpr ⟨hn, by linarith⟩
    rw [hfl, if_pos (by linarith)]
  · have hfl : ⌊y⌋ = n - 1 := Int.floor_eq_iff.mpr ⟨by push_cast; linarith, by push_cast; linarith⟩
    rw [hfl]
    push_cast
    rw [if_neg (by linarith), if_pos (by linarith)]
    ring

theorem roundHalfEven_tie {y : ℚ} (n : Int) (hn : n % 2 = 0) (h : y = n + 1 / 2) :
    roundHalfEven y = n := by
  unfold roundHalfEven
  have hfl : ⌊y⌋ = n := Int.floor_eq_iff.mpr ⟨by linarith, by linarith⟩
  rw [hfl, if_neg (by linarith), if_neg (by linarith), if_pos hn]

/-- Evaluation of a rounding: `x` in the binade of exponent `e`, strictly nearer to the
multiple `n` of the spacing than to any other. -/
theorem roundBinary64_eval {x : ℚ} (e n : Int) (he : -1022 ≤ e) (h1 : 2 ^ e ≤ |x|)
    (h2 : |x| < 2 ^ (e + 1)) (h3 : (n : ℚ) - 1 / 2 < x / 2 ^ (e - 52))
    (h4 : x / 2 ^ (e - 52) < n + 1 / 2) : roundBinary64 x = n * 2 ^ (e - 52) := by
  unfold roundBinary64
  rw [ulpExponent_eq e he h1 h2, roundHalfEven_eq n h3 h4]

/-- Evaluation of a rounding at a tie: `x` half way above the even multiple `n` of the
spacing. -/
theorem roundBinary64_eval_tie {x : ℚ} (e n : Int) (he : -1022 ≤ e) (h1 : 2 ^ e ≤ |x|)
    (h2 : |x| < 2 ^ (e + 1)) (hn : n % 2 = 0) (h3 : x / 2 ^ (e - 52) = n + 1 / 2) :
    roundBinary64 x = n * 2 ^ (e - 52) := by
  unfold roundBinary64
  rw [ulpExponent_eq e he h1 h2, roundHalfEven_tie n hn h3]

theorem roundHalfEven_tie_up {y : ℚ} (n : Int) (hn : n % 2 = 1) (h : y = n + 1 / 2) :
    roundHalfEven y = n + 1 := by
  unfold roundHalfEven
  have hfl : ⌊y⌋ = n := Int.floor_eq_iff.mpr ⟨by linarith, by linarith⟩
  rw [hfl, if_neg (by linarith), if_neg (by linarith), if_neg (by omega)]

/-- Evaluation of a rounding at a tie: `x` half way above the odd multiple `n` of the
spacing. -/
theorem roundBinary64_eval_tie_up {x : ℚ} (e n : Int) (he : -1022 ≤ e) (h1 : 2 ^ e ≤ |x|)
    (h2 : |x| < 2 ^ (e + 1)) (hn : n % 2 = 1) (h3 : x / 2 ^ (e - 52) = n + 1 / 2) :
    roundBinary64 x = (n + 1) * 2 ^ (e - 52) := by
  unfold roundBinary64
  rw [ulpExponent_eq e he h1 h2, roundHalfEven_tie_up n hn h3]
  push_cast
  ring

/-! ### The override block -/

theorem normResX_nonneg (c1 rx : ℚ) : 0 ≤ normResX c1 rx := abs_nonneg _

theorem normResX_ne_zero {c1 rx : ℚ} (h : rx ≠ 0 ∨ c1 ≠ 0) : normResX c1 rx ≠ 0 := by
  unfold normResX
  split_ifs with h0
  · rcases h with h | h
    · exact absurd h0 h
    · exact abs_ne_zero.mpr h
  · exact abs_ne_zero.mpr h0

theorem normResY_neg {c5 ry : ℚ} (h : c5 < 0) : normResY c5 ry < 0 := by
  unfold normResY
  split_ifs with h0
  · exact neg_neg_of_pos (abs_pos.mpr (ne_of_lt h))
  · exact neg_neg_of_pos (abs_pos.mpr h0)

/-- Closed form of the override block when a resolution is requested: the orientation
check decides between `return false` with pixel counts and geotransform untouched, and
the recomputed geometry. -/
theorem overrideResolution_locals (s : Locals) (hreq : s.destResX ≠ 0 ∨ s.destResY ≠ 0) :
    overrideResolution s =
      if s.adfGeoTransform.c0 ≤ 0 ∨ s.adfGeoTransform.c5 ≥ 0 then
        (some 0,
          { s with
            destResX := normResX s.adfGeoTransform.c1 s.destResX
            destResY := normResY s.adfGeoTransform.c5 s.destResY })
      else
        (none,
          { adfGeoTransform :=
              { s.adfGeoTransform with
                c1 := normResX s.adfGeoTransform.c1 s.destResX
                c5 := normResY s.adfGeoTransform.c5 s.destResY }
            destPixels :=
              toInt (pixelsValue s.adfGeoTransform s.destPixels
                (normResX s.adfGeoTransform.c1 s.destResX))
            destLines :=
              toInt (linesValue s.adfGeoTransform s.destLines
                (normResY s.adfGeoTransform.c5 s.destResY))
            destResX := normResX s.adfGeoTransform.c1 s.destResX
            destResY := normResY s.adfGeoTransform.c5 s.destResY }) := by
  obtain ⟨g, w, h, rx, ry⟩ := s
  simp only at hreq
  have hx : (if (if rx = 0 then g.c1 else rx) < 0 then -(if rx = 0 then g.c1 else rx)
      else (if rx = 0 then g.c1 else rx)) = normResX g.c1 rx := by
    unfold normResX
    split_ifs with h1 h2 h3
    · exact (abs_of_neg h2).symm
    · exact (abs_of_nonneg (le_of_not_lt h2)).symm
    · exact (abs_of_neg h3).symm
    · exact (abs_of_nonneg (le_of_not_lt h3)).symm
  have hy : (if (if ry = 0 then g.c5 else ry) > 0 then -(if ry = 0 then g.c5 else ry)
      else (if ry = 0 then g.c5 else ry)) = normResY g.c5 ry := by
    unfold normResY
    split_ifs with h1 h2 h3
    · rw [abs_of_pos h2]
    · rw [abs_of_nonpos (le_of_not_lt h2)]; simp
    · rw [abs_of_pos h3]
    · rw [abs_of_nonpos (le_of_not_lt h3)]; simp
  rw [← hx, ← hy]
  unfold overrideResolution
  rw [if_pos hreq]
  by_cases h1 : rx = 0 <;> by_cases h2 : ry = 0 <;>
    by_cases h3 : (if rx = 0 then g.c1 else rx) < 0 <;>
    by_cases h4 : (if ry = 0 then g.c5 else ry) > 0 <;>
    by_cases h5 : g.c0 ≤ 0 ∨ g.c5 ≥ 0 <;>
    simp only [h1, h2, if_true, if_false] at h3 h4 ⊢ <;>
    simp only [h3, h4, h5, if_true, if_false]

/-- With no resolution requested the override block changes nothing. -/
theorem overrideResolution_zero (g : GeoTransform) (w h : Int) :
    overrideResolution ⟨g, w, h, 0, 0⟩ = (none, ⟨g, w, h, 0, 0⟩) := by
  simp [overrideResolution]

/-- Up to the override block `warpFile` only consults its collaborators. -/
theorem warpFile_after_suggestion (run : Run) (rx ry : ℚ) (flag : Bool)
    (hinit : run.parametersInitialized = true) (hopen : run.openSrcDSAndGetWarpOpt = true)
    (hsug : run.suggestErr = 0) :
    warpFile run rx ry flag =
      match overrideResolution ⟨run.adfGeoTransform, run.destPixels, run.destLines, rx, ry⟩ with
      | (some v, _) =>
        { result := v, sWarpCanceled := flag, created := none, chained := none }
      | (none, s) =>
        if !run.createDestinationDataset s.destPixels s.destLines s.adfGeoTransform then
          { result := 0, sWarpCanceled := flag
            created := some (s.destPixels, s.destLines, s.adfGeoTransform), chained := none }
        else
          { result :=
              if ChunkAndWarpImage run.wasCanceled flag then -1
              else if run.warpErr = 0 then 1 else 0
            sWarpCanceled := ChunkAndWarpImage run.wasCanceled flag
            created := some (s.destPixels, s.destLines, s.adfGeoTransform)
            chained := some s.adfGeoTransform } := by
  simp [warpFile, hinit, hopen, hsug]

/-- The value converted on line 199 for the decimal suggestion with width 3 at the
binary64 value of 1.4: the product 0.7 * 3 is a tie and rounds down, and the value
ends one spacing below 2. -/
theorem pixelsValue_decimalSuggestion :
    pixelsValue decimalSuggestion 3 (3152519739159347 / 2 ^ 51) = 9007199254740991 / 2 ^ 52 := by
  have hp : roundBinary64 (decimalSuggestion.c1 * ((3 : Int) : ℚ)) = 4728779608739020 / 2 ^ 51 := by
    rw [roundBinary64_eval_tie 1 4728779608739020 (by norm_num)
      (by norm_num [decimalSuggestion, abs_of_pos])
      (by norm_num [decimalSuggestion, abs_of_pos]) (by norm_num)
      (by norm_num [decimalSuggestion])]
    norm_num
  have hs : roundBinary64 (decimalSuggestion.c0 + 4728779608739020 / 2 ^ 51) =
      4953959590107545 / 2 ^ 51 := by
    rw [roundBinary64_eval 1 4953959590107545 (by norm_num)
      (by norm_num [decimalSuggestion, abs_of_pos])
      (by norm_num [decimalSuggestion, abs_of_pos])
      (by norm_num [decimalSuggestion]) (by norm_num [decimalSuggestion])]
    norm_num
  have he : roundBinary64 (4953959590107545 / 2 ^ 51 - decimalSuggestion.c0) =
      4728779608739020 / 2 ^ 51 := by
    rw [roundBinary64_eval 1 4728779608739020 (by norm_num)
      (by norm_num [decimalSuggestion, abs_of_pos])
      (by norm_num [decimalSuggestion, abs_of_pos])
      (by norm_num [decimalSuggestion]) (by norm_num [decimalSuggestion])]
    norm_num
  have hq : roundBinary64 ((4728779608739020 / 2 ^ 51 : ℚ) / (3152519739159347 / 2 ^ 51)) =
      6755399441055743 / 2 ^ 52 := by
    rw [roundBinary64_eval 0 6755399441055743 (by norm_num)
      (by norm_num [abs_of_pos]) (by norm_num [abs_of_pos]) (by norm_num) (by norm_num)]
    norm_num
  have hv : roundBinary64 ((6755399441055743 / 2 ^ 52 : ℚ) + 1 / 2) = 9007199254740991 / 2 ^ 52 := by
    rw [show ((6755399441055743 / 2 ^ 52 : ℚ) + 1 / 2) = 9007199254740991 / 2 ^ 52 by norm_num]
    exact roundBinary64_eq 9007199254740991 (-52) (by norm_num) (by norm_num) (by norm_num)
      (by norm_num)
  unfold pixelsValue extentX
  simp only [hp, hs, he, hq, hv]

/-- Rounding shows in ordinary data: for the binary64 values of c0 = 0.1, c1 = 0.7 and
destResX = 1.4 with width 3 the exact quotient is 3/2, which rounds half up to 2, and
the width computed in binary64 is 1. -/
theorem overrideResolution_decimal_extent_rounds :
    (0 < decimalSuggestion.c0 ∧ decimalSuggestion.c5 < 0 ∧ 0 ≤ decimalSuggestion.c1) ∧
    (overrideResolution ⟨decimalSuggestion, 3, 3, 3152519739159347 / 2 ^ 51, 0⟩).1 = none ∧
    (overrideResolution ⟨decimalSuggestion, 3, 3, 3152519739159347 / 2 ^ 51, 0⟩).2.destPixels
      = 1 ∧
    ⌊((decimalSuggestion.c0 + decimalSuggestion.c1 * ((3 : Int) : ℚ)) - decimalSuggestion.c0)
        / normResX decimalSuggestion.c1 (3152519739159347 / 2 ^ 51) + 1 / 2⌋ = 2 := by
  rw [overrideResolution_locals _ (by norm_num), if_neg (by norm_num [decimalSuggestion])]
  have hn : normResX decimalSuggestion.c1 (3152519739159347 / 2 ^ 51)
      = 3152519739159347 / 2 ^ 51 := by
    norm_num [normResX]
  have hx : toInt (pixelsValue decimalSuggestion 3
      (normResX decimalSuggestion.c1 (3152519739159347 / 2 ^ 51))) = 1 := by
    rw [hn, pixelsValue_decimalSuggestion]
    exact toInt_eq_floor_of (by norm_num) (by norm_num) (by norm_num)
  refine ⟨by norm_num [decimalSuggestion], rfl, hx, ?_⟩
  rw [hn, Int.floor_eq_iff]
  norm_num [decimalSuggestion]

/-- C3: in a run that reaches the override block with a requested resolution other than
(0, 0), the block leaves `warpFile` with `return false` exactly when c0 <= 0 or c5 >= 0;
exactly then `createDestinationDataset` is never called; and in that case the result is
0, no chain is built, and the pixel counts and the geotransform are still the suggested
ones. -/
theorem warpFile_orientation_check (run : Run) (rx ry : ℚ) (flag : Bool)
    (hinit : run.parametersInitialized = true) (hopen : run.openSrcDSAndGetWarpOpt = true)
    (hsug : run.suggestErr = 0) (hreq : rx ≠ 0 ∨ ry ≠ 0) :
    ((overrideResolution ⟨run.adfGeoTransform, run.destPixels, run.destLines, rx, ry⟩).1 = some 0 ↔
      (run.adfGeoTransform.c0 ≤ 0 ∨ run.adfGeoTransform.c5 ≥ 0)) ∧
    ((warpFile run rx ry flag).created = none ↔
      (run.adfGeoTransform.c0 ≤ 0 ∨ run.adfGeoTransform.c5 ≥ 0)) ∧
    ((run.adfGeoTransform.c0 ≤ 0 ∨ run.adfGeoTransform.c5 ≥ 0) →
      (warpFile run rx ry flag).result = 0 ∧
      (warpFile run rx ry flag).chained = none ∧
      (overrideResolution ⟨run.adfGeoTransform, run.destPixels, run.destLines, rx, ry⟩).2.adfGeoTransform
        = run.adfGeoTransform ∧
      (overrideResolution ⟨run.adfGeoTransform, run.destPixels, run.destLines, rx, ry⟩).2.destPixels
        = run.destPixels ∧
      (overrideResolution ⟨run.adfGeoTransform, run.destPixels, run.destLines, rx, ry⟩).2.destLines
        = run.destLines) := by
  rw [warpFile_after_suggestion run rx ry flag hinit hopen hsug,
    overrideResolution_locals _ hreq]
  by_cases hg : run.adfGeoTransform.c0 ≤ 0 ∨ run.adfGeoTransform.c5 ≥ 0
  · rw [if_pos hg]
    simp [hg]
  · rw [if_neg hg]
    refine ⟨by simp [hg], ?_, fun h => absurd h hg⟩
    simp only [hg, iff_false]
    split <;> simp

/-- A suggestion whose origin X is negative makes a run with requested resolution
(2, 0) stop before the destination dataset is created. -/
theorem warpFile_orientation_check_witness :
    ((smoothRun southUpSuggestion 10 10 [] 0).parametersInitialized = true ∧
      (smoothRun southUpSuggestion 10 10 [] 0).openSrcDSAndGetWarpOpt = true ∧
      (smoothRun southUpSuggestion 10 10 [] 0).suggestErr = 0 ∧
      ((2 : ℚ) ≠ 0 ∨ (0 : ℚ) ≠ 0)) ∧
    (warpFile (smoothRun southUpSuggestion 10 10 [] 0) 2 0 false).created = none :=
  ⟨⟨rfl, rfl, rfl, Or.inl (by norm_num)⟩,
   (warpFile_orientation_check (smoothRun southUpSuggestion 10 10 [] 0) 2 0 false rfl rfl rfl
      (Or.inl (by norm_num))).2.1.mpr
     (Or.inl (by norm_num [smoothRun, southUpSuggestion]))⟩

/-- The value converted on line 199 for the wide suggestion with width 3 at its own
X pixel size: the sum 2^53 + 3 is a tie and rounds to 2^53 + 4, so the extent is 4. -/
theorem pixelsValue_wideSuggestion : pixelsValue wideSuggestion 3 1 = 9 / 2 := by
  have hp : roundBinary64 (wideSuggestion.c1 * ((3 : Int) : ℚ)) = 3 := by
    rw [show wideSuggestion.c1 * ((3 : Int) : ℚ) = 3 by norm_num [wideSuggestion]]
    exact roundBinary64_eq 3 0 (by norm_num) (by norm_num) (by norm_num) (by norm_num)
  have hs : roundBinary64 (wideSuggestion.c0 + 3) = 2 ^ 53 + 4 := by
    rw [roundBinary64_eval_tie_up 53 4503599627370497 (by norm_num)
      (by norm_num [wideSuggestion, abs_of_pos]) (by norm_num [wideSuggestion, abs_of_pos])
      (by norm_num) (by norm_num [wideSuggestion])]
    norm_num
  have he : roundBinary64 (2 ^ 53 + 4 - wideSuggestion.c0) = 4 := by
    rw [show (2 ^ 53 + 4 - wideSuggestion.c0 : ℚ) = 4 by norm_num [wideSuggestion]]
    exact roundBinary64_eq 4 0 (by norm_num) (by norm_num) (by norm_num) (by norm_num)
  have hq : roundBinary64 (4 / 1) = 4 := by
    rw [show (4 / 1 : ℚ) = 4 by norm_num]
    exact roundBinary64_eq 4 0 (by norm_num) (by norm_num) (by norm_num) (by norm_num)
  have hv : roundBinary64 (4 + 1 / 2) = 9 / 2 := by
    rw [show (4 + 1 / 2 : ℚ) = 9 / 2 by norm_num]
    exact roundBinary64_eq 9 (-1) (by norm_num) (by norm_num) (by norm_num) (by norm_num)
  unfold pixelsValue extentX
  simp only [hp, hs, he, hq, hv]

/-- Rounding of the extent shows for a wide origin: with c0 = 2^53, c1 = 1 and width 3,
only Y requested, the suggestion passes the orientation check, c1 is positive, and the
output width is 4, not the suggested 3. -/
theorem overrideResolution_wide_origin_rounds :
    (0 < wideSuggestion.c0 ∧ wideSuggestion.c5 < 0 ∧ 0 < wideSuggestion.c1) ∧
    (overrideResolution ⟨wideSuggestion, 3, 3, 0, -1⟩).1 = none ∧
    (overrideResolution ⟨wideSuggestion, 3, 3, 0, -1⟩).2.adfGeoTransform.c1 = 1 ∧
    (overrideResolution ⟨wideSuggestion, 3, 3, 0, -1⟩).2.destPixels = 4 := by
  rw [overrideResolution_locals _ (by norm_num), if_neg (by norm_num [wideSuggestion])]
  have hn : normResX wideSuggestion.c1 0 = 1 := by norm_num [normResX, wideSuggestion]
  have hx : toInt (pixelsValue wideSuggestion 3 (normResX wideSuggestion.c1 0)) = 4 := by
    rw [hn, pixelsValue_wideSuggestion]
    exact toInt_eq_floor_of (by norm_num) (by norm_num) (by norm_num)
  exact ⟨by norm_num [wideSuggestion], rfl, hn, hx⟩

/-- C5: in a run that reaches the override block with requested resolution (0, 0), the
block does not fail and changes nothing, whatever the suggestion; the width, height and
geotransform written at the `createDestinationDataset` call are the suggested ones, and
so is the geotransform handed to `addGeoToPixelTransform` once the dataset exists. -/
theorem warpFile_zero_resolution_identity (run : Run) (flag : Bool)
    (hinit : run.parametersInitialized = true) (hopen : run.openSrcDSAndGetWarpOpt = true)
    (hsug : run.suggestErr = 0) :
    overrideResolution ⟨run.adfGeoTransform, run.destPixels, run.destLines, 0, 0⟩ =
      (none, ⟨run.adfGeoTransform, run.destPixels, run.destLines, 0, 0⟩) ∧
    (warpFile run 0 0 flag).created =
      some (run.destPixels, run.destLines, run.adfGeoTransform) ∧
    (warpFile run 0 0 flag).chained =
      (if run.createDestinationDataset run.destPixels run.destLines run.adfGeoTransform
       then some run.adfGeoTransform else none) := by
  rw [warpFile_after_suggestion run 0 0 flag hinit hopen hsug, overrideResolution_zero]
  refine ⟨rfl, ?_, ?_⟩
  · simp only
    split <;> rfl
  · simp only
    cases run.createDestinationDataset run.destPixels run.destLines run.adfGeoTransform <;> rfl

/-- A suggestion that is not north-up passes through unchanged when no resolution is
requested. -/
theorem warpFile_zero_resolution_identity_witness :
    ((smoothRun southUpSuggestion 10 10 [] 0).parametersInitialized = true ∧
      (smoothRun southUpSuggestion 10 10 [] 0).openSrcDSAndGetWarpOpt = true ∧
      (smoothRun southUpSuggestion 10 10 [] 0).suggestErr = 0) ∧
    (warpFile (smoothRun southUpSuggestion 10 10 [] 0) 0 0 false).created =
      some (10, 10, southUpSuggestion) :=
  ⟨⟨rfl, rfl, rfl⟩,
   (warpFile_zero_resolution_identity (smoothRun southUpSuggestion 10 10 [] 0) false
      rfl rfl rfl).2.1⟩

/-- C9 (amended): with a requested resolution other than (0, 0), whenever the override
block does not fail, the output X pixel size is non-negative, and positive exactly when
the zero-filled X request is non-zero; the output Y pixel size is negative; origin and
rotation terms are the suggested ones; and both pixel sizes equal in absolute value the
zero-filled requests. -/
theorem overrideResolution_north_up (g : GeoTransform) (w h : Int) (rx ry : ℚ)
    (hreq : rx ≠ 0 ∨ ry ≠ 0) (hok : (overrideResolution ⟨g, w, h, rx, ry⟩).1 = none) :
    0 ≤ (overrideResolution ⟨g, w, h, rx, ry⟩).2.adfGeoTransform.c1 ∧
    (0 < (overrideResolution ⟨g, w, h, rx, ry⟩).2.adfGeoTransform.c1 ↔ (rx ≠ 0 ∨ g.c1 ≠ 0)) ∧
    (overrideResolution ⟨g, w, h, rx, ry⟩).2.adfGeoTransform.c5 < 0 ∧
    (overrideResolution ⟨g, w, h, rx, ry⟩).2.adfGeoTransform.c0 = g.c0 ∧
    (overrideResolution ⟨g, w, h, rx, ry⟩).2.adfGeoTransform.c3 = g.c3 ∧
    (overrideResolution ⟨g, w, h, rx, ry⟩).2.adfGeoTransform.c2 = g.c2 ∧
    (overrideResolution ⟨g, w, h, rx, ry⟩).2.adfGeoTransform.c4 = g.c4 ∧
    |(overrideResolution ⟨g, w, h, rx, ry⟩).2.adfGeoTransform.c1| = |if rx = 0 then g.c1 else rx| ∧
    |(overrideResolution ⟨g, w, h, rx, ry⟩).2.adfGeoTransform.c5| = |if ry = 0 then g.c5 else ry| := by
  rw [overrideResolution_locals _ hreq] at hok ⊢
  by_cases hg : g.c0 ≤ 0 ∨ g.c5 ≥ 0
  · rw [if_pos hg] at hok
    simp at hok
  · rw [if_neg hg]
    have hc5 : g.c5 < 0 := by
      by_contra hcon
      exact hg (Or.inr (le_of_not_lt hcon))
    refine ⟨normResX_nonneg _ _, ?_, normResY_neg hc5, rfl, rfl, rfl, rfl, ?_, ?_⟩
    · constructor
      · intro hpos
        by_contra hcon
        push_neg at hcon
        have : normResX g.c1 rx = 0 := by simp [normResX, hcon.1, hcon.2]
        exact absurd hpos (by simp [this])
      · intro hne
        exact lt_of_le_of_ne (normResX_nonneg _ _) (Ne.symm (normResX_ne_zero hne))
    · show |normResX g.c1 rx| = _
      simp [normResX]
    · show |normResY g.c5 ry| = _
      simp [normResY]

/-- The worked example of the spec ends north-up. -/
theorem overrideResolution_north_up_witness :
    (((2 : ℚ) ≠ 0 ∨ (-2 : ℚ) ≠ 0) ∧
      (overrideResolution ⟨suggestedExample, 1000, 1000, 2, -2⟩).1 = none) ∧
    (overrideResolution ⟨suggestedExample, 1000, 1000, 2, -2⟩).2.adfGeoTransform.c5 < 0 :=
  have hok : (overrideResolution ⟨suggestedExample, 1000, 1000, 2, -2⟩).1 = none := by
    rw [overrideResolution_locals _ (by norm_num), if_neg (by norm_num [suggestedExample])]
  ⟨⟨Or.inl (by norm_num), hok⟩,
   (overrideResolution_north_up suggestedExample 1000 1000 2 (-2) (Or.inl (by norm_num))
      hok).2.2.1⟩

/-- C9 as stated fails: a suggestion with c0 = 1 > 0, c5 = -1 < 0 and c1 = 0, with only
Y requested, passes the orientation check and the output X pixel size is 0, which is
not positive. -/
theorem overrideResolution_zero_pixel_size :
    (overrideResolution ⟨flatSuggestion, 2, 2, 0, 1⟩).1 = none ∧
    (overrideResolution ⟨flatSuggestion, 2, 2, 0, 1⟩).2.adfGeoTransform.c1 = 0 ∧
    ¬ 0 < (overrideResolution ⟨flatSuggestion, 2, 2, 0, 1⟩).2.adfGeoTransform.c1 := by
  rw [overrideResolution_locals _ (by norm_num), if_neg (by norm_num [flatSuggestion])]
  have h0 : normResX flatSuggestion.c1 0 = 0 := by norm_num [normResX, flatSuggestion]
  refine ⟨rfl, h0, ?_⟩
  show ¬ 0 < normResX flatSuggestion.c1 0
  rw [h0]
  exact lt_irrefl 0

/-! ## Cancellation -/

/-- The flag after the progress calls of the engine: the flag on entry when the engine
makes no call, and otherwise whether the sink asked to stop. -/
theorem ChunkAndWarpImage_eq (answers : List Bool) (flag : Bool) :
    ChunkAndWarpImage answers flag =
      if answers = [] then flag else decide (true ∈ answers) := by
  induction answers generalizing flag with
  | nil => rfl
  | cons a rest ih =>
    cases a
    · simp only [ChunkAndWarpImage, updateWarpProgress, ih]
      by_cases hr : rest = []
      · simp [hr]
      · simp [hr]
    · simp [ChunkAndWarpImage, updateWarpProgress]

/-- In a run that reaches the resampling stage the result is -1 exactly when the sink
asked to stop, or the engine made no progress call and the flag was already set. -/
theorem warpFile_canceled_iff (run : Run) (rx ry : ℚ) (flag : Bool)
    (hinit : run.parametersInitialized = true) (hopen : run.openSrcDSAndGetWarpOpt = true)
    (hsug : run.suggestErr = 0) (hchain : (warpFile run rx ry flag).chained ≠ none) :
    (warpFile run rx ry flag).result = -1 ↔
      (true ∈ run.wasCanceled ∨ (run.wasCanceled = [] ∧ flag = true)) := by
  rw [warpFile_after_suggestion run rx ry flag hinit hopen hsug] at hchain ⊢
  rcases hov : overrideResolution ⟨run.adfGeoTransform, run.destPixels, run.destLines, rx, ry⟩
    with ⟨_ | v, s⟩
  · rw [hov] at hchain
    simp only at hchain ⊢
    cases hc : run.createDestinationDataset s.destPixels s.destLines s.adfGeoTransform
    · simp [hc] at hchain
    · simp only [hc, Bool.not_true, Bool.false_eq_true, if_false, ChunkAndWarpImage_eq]
      by_cases hl : run.wasCanceled = []
      · simp only [hl, if_true]
        cases flag <;> by_cases he : run.warpErr = 0 <;> simp [he]
      · simp only [hl, if_false, false_and, or_false]
        by_cases hm : true ∈ run.wasCanceled <;> by_cases he : run.warpErr = 0 <;> simp [hm, he]
  · rw [hov] at hchain
    simp at hchain

/-- C8 fails on the code: with `sWarpCanceled` left set by an earlier run and an engine
that makes no progress call, a run that reaches the resampling stage and in which no
cancellation is signalled returns -1, both when the engine reports no error (`CE_None`,
0) and when it reports a failure (`CE_Failure`, 3). -/
theorem warpFile_stale_flag_reports_canceled :
    (smoothRun suggestedExample 1000 1000 [] 0).wasCanceled = [] ∧
    (warpFile (smoothRun suggestedExample 1000 1000 [] 0) 0 0 true).chained
      = some suggestedExample ∧
    (warpFile (smoothRun suggestedExample 1000 1000 [] 0) 0 0 true).result = -1 ∧
    (warpFile (smoothRun suggestedExample 1000 1000 [] 3) 0 0 true).chained
      = some suggestedExample ∧
    (warpFile (smoothRun suggestedExample 1000 1000 [] 3) 0 0 true).result = -1 := by
  rw [warpFile_after_suggestion _ 0 0 true rfl rfl rfl,
    warpFile_after_suggestion _ 0 0 true rfl rfl rfl, overrideResolution_zero]
  exact ⟨rfl, rfl, rfl, rfl, rfl⟩

end QgsImageWarper
